import Mathlib

/-!
Formal model of `src/project1/main.py`: a number-guessing game in which an
LLM agent tries to guess a secret number between 1 and 100 within a fixed
number of attempts, receiving feedback through a single tool.

Modelling conventions:
* The OpenAI client is abstracted as an oracle `Nat → LLMResult` giving the
  result of the n-th `chat.completions.create` call (0-indexed): either a
  response message or a transport exception.
* Python exceptions are modelled with `Except (String × Agent) _`; the error
  carries the agent state at raise time, because `self.messages` mutations
  made before the raise persist in the Python object.
* A tool call's `function.arguments` JSON string is modelled by the result of
  `json.loads` + keyword binding: `guessArg = some g` when parsing yields a
  guess `g`, `none` when `json.loads` would raise.
* The module-global `app_random_number` (line 32) is threaded as an explicit
  `secret : Int` parameter.
* `print` calls are not modelled; only transcript and state are.
-/

namespace GuessGame

/-- Line 34 of main.py. -/
def TOO_HIGH_MESSAGE : String := "Too high!"

/-- Line 35 of main.py. -/
def TOO_LOW_MESSAGE : String := "Too low!"

/-- Line 36 of main.py. -/
def THAT_IS_RIGHT_MESSAGE : String := "That's right!"

/-- Lines 38-50 of main.py: evaluate the guess against the module-global
`app_random_number`, here the explicit parameter. -/
def evaluate_your_try (app_random_number guess : Int) : String :=
  if guess > app_random_number then TOO_HIGH_MESSAGE
  else if guess < app_random_number then TOO_LOW_MESSAGE
  else THAT_IS_RIGHT_MESSAGE

/-- Lines 56-59 of main.py: the game state enumeration. -/
inductive GameState where
  | INIT
  | PLAYING
  | END
deriving Repr, DecidableEq

/-- One tool invocation carried by a model response. `guessArg` is the
result of `json.loads(tc.function.arguments)` followed by binding the
`guess` keyword argument: `none` models a payload on which that parse
raises, `some g` the successfully parsed guess. -/
structure ToolCall where
  id : String
  fname : String
  guessArg : Option Int
deriving Repr, DecidableEq

/-- The relevant fields of an OpenAI response message: optional text content
and the list of tool calls (the empty list models a falsy `tool_calls`). -/
structure ResponseMessage where
  content : Option String
  tool_calls : List ToolCall
deriving Repr, DecidableEq

/-- One turn of the conversation transcript `self.messages`. -/
inductive Msg where
  | system (content : String)
  | user (content : String)
  | assistant (content : Option String) (tool_calls : List ToolCall)
  | tool (tool_call_id : String) (name : String) (content : String)
deriving Repr, DecidableEq

/-- The result of one `chat.completions.create` call: a response message, or
a transport exception raised inside the call. -/
inductive LLMResult where
  | resp (rm : ResponseMessage)
  | err (e : String)
deriving Repr, DecidableEq

/-- The mutable fields of `OpenAIGuessGameAgent` that the game logic reads
or writes (`client` and `model` are only forwarded to the API and are
subsumed by the oracle). -/
structure Agent where
  max_tries : Nat
  state : GameState
  messages : List Msg
deriving Repr, DecidableEq

/-- `json.dumps` applied to a string value: the string, escaped, wrapped in
double quotes.  The escape covers the characters that can occur in this
program's payloads (printable ASCII plus the common escapes). -/
def json_escape_char (c : Char) : String :=
  if c = '\"' then "\\\""
  else if c = '\\' then "\\\\"
  else if c = '\n' then "\\n"
  else if c = '\t' then "\\t"
  else if c = '\r' then "\\r"
  else String.singleton c

/-- `json.dumps` on a string (line 161 of main.py serializes the evaluator
message with it). -/
def json_dumps_string (s : String) : String :=
  "\"" ++ String.join (s.toList.map json_escape_char) ++ "\""

/-- Lines 11-29 of main.py: the tool schema list, represented by the names
of the functions it exposes (the only part the game logic can observe). -/
def g_tools : List String := ["evaluate_your_try"]

/-- Lines 70-78 of main.py: the two seed messages of the transcript. -/
def init_messages (max_tries : Nat) : List Msg :=
  [ Msg.system "You are a fortune teller",
    Msg.user ("ME: I am thinking of a number between 1 and 100 and you will try to guess it. You have " ++ toString max_tries ++ " tries to guess.") ]

/-- Lines 62-68 of main.py: a freshly constructed agent (state INIT, seeded
transcript). -/
def mkAgent (max_tries : Nat) : Agent :=
  { max_tries := max_tries, state := GameState.INIT, messages := init_messages max_tries }

/-- Lines 145-163 of main.py, one iteration of the `for tool_call in ...`
loop: parse the arguments (may raise), look the function name up in
`available_functions` (KeyError if absent; the table holds exactly
`evaluate_your_try`), call it, set state to END on the correct sentinel,
append the tool-result turn with the `json.dumps`-serialized message. -/
def dispatch_tool_call (secret : Int) (a : Agent) (tc : ToolCall) :
    Except (String × Agent) Agent :=
  match tc.guessArg with
  | none => Except.error ("json.loads failed on tool arguments", a)
  | some g =>
    if tc.fname = "evaluate_your_try" then
      let r := evaluate_your_try secret g
      let a2 := if r = THAT_IS_RIGHT_MESSAGE then { a with state := GameState.END } else a
      Except.ok { a2 with messages := a2.messages ++ [Msg.tool tc.id tc.fname (json_dumps_string r)] }
    else
      Except.error ("KeyError: " ++ tc.fname, a)

/-- The `for tool_call in response_message.tool_calls` loop of
`process_tool_response` (lines 145-163): process the calls in order,
stopping at the first raised exception. -/
def run_tool_calls (secret : Int) (a : Agent) : List ToolCall → Except (String × Agent) Agent
  | [] => Except.ok a
  | tc :: rest =>
    match dispatch_tool_call secret a tc with
    | Except.ok a2 => run_tool_calls secret a2 rest
    | Except.error e => Except.error e

/-- Lines 120-163 of main.py: append the assistant turn echoing the tool
calls, then process each call in order. -/
def process_tool_response (secret : Int) (a : Agent) (rm : ResponseMessage) :
    Except (String × Agent) Agent :=
  let a1 := { a with messages := a.messages ++ [Msg.assistant rm.content rm.tool_calls] }
  run_tool_calls secret a1 rm.tool_calls

/-- Lines 165-176 of main.py: a plain (non-tool) reply; raises when the game
is in the PLAYING state, otherwise accepted silently. -/
def process_message (a : Agent) (_rm : ResponseMessage) :
    Except (String × Agent) Agent :=
  if a.state = GameState.PLAYING then
    Except.error ("Unexpected message from LLM during PLAYING state.", a)
  else
    Except.ok a

/-- Lines 102-118 of main.py: make one model call (its outcome supplied by
the oracle) and dispatch on whether the response carries tool calls.  The
`tools` list is only forwarded to the API, so it does not influence the
processing; it is kept to record which schema each call was made with. -/
def call_llm (secret : Int) (_tools : List String) (a : Agent) (r : LLMResult) :
    Except (String × Agent) Agent :=
  match r with
  | LLMResult.err e => Except.error (e, a)
  | LLMResult.resp rm =>
    if rm.tool_calls.isEmpty then process_message a rm
    else process_tool_response secret a rm

/-- How the `while` loop of `play` (lines 85-92) exits: an early `return`
with state END, the guard `llm_try < max_tries` turning false, or an
exception caught by the `except` block.  Each exit records the final value
of `llm_try` (the number of rounds performed). -/
inductive LoopExit where
  | ended (a : Agent) (rounds : Nat)
  | exhausted (a : Agent) (rounds : Nat)
  | caught (e : String) (a : Agent) (rounds : Nat)
deriving Repr, DecidableEq

/-- The `while llm_try < self.max_tries` loop of `play` (lines 86-90),
recursing on `remaining = max_tries - llm_try` (the guard is false exactly
when `remaining = 0`).  Each iteration increments `llm_try`, makes one model
call (`oracle llm_try` is its outcome, `llm_try` calls having been made
before it), and returns if the state reached END. -/
def play_loop (secret : Int) (oracle : Nat → LLMResult) :
    Nat → Nat → Agent → LoopExit
  | 0, llm_try, a => LoopExit.exhausted a llm_try
  | remaining + 1, llm_try, a =>
    match call_llm secret g_tools a (oracle llm_try) with
    | Except.error (e, a2) => LoopExit.caught e a2 (llm_try + 1)
    | Except.ok a2 =>
      if a2.state = GameState.END then LoopExit.ended a2 (llm_try + 1)
      else play_loop secret oracle remaining (llm_try + 1) a2

/-- Line 96 of main.py: the post-loss user message revealing the secret. -/
def final_user_message (secret : Int) : String :=
  "ME: You lost! My number was " ++ toString secret ++ ". How is it possible when you are the fortune teller?"

/-- The observable outcome of one `play()` run. -/
structure PlayOutcome where
  /-- The agent object when `play` finishes (normally or by raising). -/
  agent : Agent
  /-- Final value of `llm_try`: the number of guessing-loop rounds run. -/
  rounds : Nat
  /-- Total number of `chat.completions.create` invocations. -/
  calls : Nat
  /-- The exception caught and printed by the `except` block, if any. -/
  caught : Option String
  /-- The tools argument of the post-loop model call (line 99), if that call
  was reached; `none` when `play` returned early from inside the loop. -/
  final_call : Option (List String)
  /-- An exception propagating out of `play()` (only possible from the
  post-loop call, which sits outside the `try`). -/
  escaped : Option String
deriving Repr, DecidableEq

/-- Lines 95-99 of main.py: the epilogue after the loop (reached both when
the attempts are exhausted and after a caught exception): force state to
END, append the post-loss user turn, make one model call with `tools=[]`.
An exception in that call escapes `play`. -/
def play_epilogue (secret : Int) (oracle : Nat → LLMResult) (a : Agent)
    (rounds : Nat) (caught : Option String) : PlayOutcome :=
  match call_llm secret ([] : List String)
      { a with state := GameState.END,
               messages := a.messages ++ [Msg.user (final_user_message secret)] }
      (oracle rounds) with
  | Except.ok a3 =>
    { agent := a3, rounds := rounds, calls := rounds + 1, caught := caught,
      final_call := some ([] : List String), escaped := none }
  | Except.error (e, a3) =>
    { agent := a3, rounds := rounds, calls := rounds + 1, caught := caught,
      final_call := some ([] : List String), escaped := some e }

/-- How `play` (lines 80-99) finishes from each loop exit: an early END
`return` inside the `try` skips the epilogue; the guard turning false or a
caught (and printed) exception both fall through to the epilogue. -/
def play_finish (secret : Int) (oracle : Nat → LLMResult) : LoopExit → PlayOutcome
  | LoopExit.ended a2 r =>
    { agent := a2, rounds := r, calls := r, caught := none,
      final_call := none, escaped := none }
  | LoopExit.exhausted a2 r => play_epilogue secret oracle a2 r none
  | LoopExit.caught e a2 r => play_epilogue secret oracle a2 r (some e)

/-- Lines 80-99 of main.py: `play()`.  Sets state to PLAYING (line 82),
runs the guessing loop, and finishes as above. -/
def play (secret : Int) (oracle : Nat → LLMResult) (a0 : Agent) : PlayOutcome :=
  play_finish secret oracle
    (play_loop secret oracle a0.max_tries 0 { a0 with state := GameState.PLAYING })

/-! Helper predicates classifying oracle results, and accessors. -/

/-- A tool call whose function name is registered in `available_functions`
(lines 52-54) and whose arguments parse: processing it raises nothing. -/
def good_tool_call (tc : ToolCall) : Bool :=
  tc.fname == "evaluate_your_try" && tc.guessArg.isSome

/-- An oracle result none of whose tool calls raises during dispatch (the
LLM-client contract of the spec: every invocation names a registered
function and supplies parseable arguments). -/
def good_result : LLMResult → Bool
  | LLMResult.err _ => true
  | LLMResult.resp rm => rm.tool_calls.all good_tool_call

/-- The parsed guesses carried by an oracle result. -/
def guesses : LLMResult → List Int
  | LLMResult.resp rm => rm.tool_calls.filterMap ToolCall.guessArg
  | LLMResult.err _ => []

/-- No guess in the result evaluates to the correct sentinel. -/
def correct_free (secret : Int) (r : LLMResult) : Bool :=
  (guesses r).all fun g => !(evaluate_your_try secret g == THAT_IS_RIGHT_MESSAGE)

/-- The call's guess evaluates to the correct sentinel. -/
def tc_correct (secret : Int) (tc : ToolCall) : Bool :=
  evaluate_your_try secret (tc.guessArg.getD 0) == THAT_IS_RIGHT_MESSAGE

/-- A well-formed tool response all of whose guesses are wrong: the round
it answers completes without raising and without reaching END. -/
def wrong_tool_resp (secret : Int) : LLMResult → Bool
  | LLMResult.err _ => false
  | LLMResult.resp rm =>
    !rm.tool_calls.isEmpty &&
      rm.tool_calls.all fun tc => good_tool_call tc && !tc_correct secret tc

/-- A well-formed tool response at least one of whose guesses is right. -/
def correct_tool_resp (secret : Int) : LLMResult → Bool
  | LLMResult.err _ => false
  | LLMResult.resp rm =>
    !rm.tool_calls.isEmpty && rm.tool_calls.all good_tool_call &&
      rm.tool_calls.any (tc_correct secret)

/-- A response with no tool calls: a plain-text reply. -/
def plain_resp : LLMResult → Bool
  | LLMResult.resp rm => rm.tool_calls.isEmpty
  | LLMResult.err _ => false

/-- The tool-result turn that processing `tc` appends (line 156-163). -/
def tool_result_msg (secret : Int) (tc : ToolCall) : Msg :=
  Msg.tool tc.id tc.fname (json_dumps_string (evaluate_your_try secret (tc.guessArg.getD 0)))

/-- The game state after processing one tool call from state `s`. -/
def after_call_state (secret : Int) (s : GameState) (tc : ToolCall) : GameState :=
  if tc_correct secret tc then GameState.END else s

/-- The agent object after a computation, whether it returned or raised
(a raise leaves the mutations made so far in place). -/
def except_agent : Except (String × Agent) Agent → Agent
  | Except.ok a => a
  | Except.error (_, a) => a

/-- The agent carried by a loop exit. -/
def LoopExit.exitAgent : LoopExit → Agent
  | LoopExit.ended a _ => a
  | LoopExit.exhausted a _ => a
  | LoopExit.caught _ a _ => a

/-- The final `llm_try` value carried by a loop exit. -/
def LoopExit.exitRounds : LoopExit → Nat
  | LoopExit.ended _ r => r
  | LoopExit.exhausted _ r => r
  | LoopExit.caught _ _ r => r

/-! The transcript invariant: every assistant turn carrying tool
invocations is immediately followed by one tool-result turn per invocation,
with matching identifiers, in invocation order. -/

/-- Invocation `j` of the assistant turn at index `i` is answered: the turn
at index `i + 1 + j` is a tool turn whose `tool_call_id` is that
invocation's id. -/
def invocation_answered (msgs : List Msg) (i : Nat) (tcs : List ToolCall) (j : Nat) : Bool :=
  match tcs[j]?, msgs[i + 1 + j]? with
  | some tc, some (Msg.tool tid _ _) => tid == tc.id
  | _, _ => false

/-- The turn at index `i`, when it is an assistant turn carrying tool
invocations, has all its invocations answered immediately after it, in
order.  Other turns pass trivially. -/
def block_at (msgs : List Msg) (i : Nat) : Bool :=
  match msgs[i]? with
  | some (Msg.assistant _ tcs) => (List.range tcs.length).all (invocation_answered msgs i tcs)
  | _ => true

/-- The whole-transcript invariant. -/
def transcript_ok (msgs : List Msg) : Bool :=
  (List.range msgs.length).all (block_at msgs)

/-! Characterization of tool-call processing. -/

theorem dispatch_tool_call_good (secret : Int) (a : Agent) (tc : ToolCall)
    (h : good_tool_call tc = true) :
    dispatch_tool_call secret a tc =
      Except.ok { a with state := after_call_state secret a.state tc,
                         messages := a.messages ++ [tool_result_msg secret tc] } := by
  have h' := h
  unfold good_tool_call at h'
  rw [Bool.and_eq_true] at h'
  obtain ⟨hf, hg⟩ := h'
  obtain ⟨g, hgg⟩ := Option.isSome_iff_exists.mp hg
  have hf' : tc.fname = "evaluate_your_try" := by
    exact eq_of_beq hf
  by_cases hc : evaluate_your_try secret g = THAT_IS_RIGHT_MESSAGE <;>
    simp [dispatch_tool_call, hgg, hf', after_call_state, tc_correct,
      tool_result_msg, hc]

theorem run_tool_calls_good (secret : Int) (tcs : List ToolCall)
    (h : ∀ tc ∈ tcs, good_tool_call tc = true) :
    ∀ a : Agent, run_tool_calls secret a tcs =
      Except.ok { a with state := tcs.foldl (after_call_state secret) a.state,
                         messages := a.messages ++ tcs.map (tool_result_msg secret) } := by
  induction tcs with
  | nil => intro a; simp [run_tool_calls]
  | cons tc rest ih =>
    intro a
    have htc : good_tool_call tc = true := h tc (List.mem_cons_self tc rest)
    have hrest : ∀ tc2 ∈ rest, good_tool_call tc2 = true :=
      fun tc2 hm => h tc2 (List.mem_cons_of_mem tc hm)
    simp only [run_tool_calls, dispatch_tool_call_good secret a tc htc]
    rw [ih hrest]
    simp [List.append_assoc]

theorem process_tool_response_good (secret : Int) (a : Agent) (rm : ResponseMessage)
    (h : ∀ tc ∈ rm.tool_calls, good_tool_call tc = true) :
    process_tool_response secret a rm =
      Except.ok { a with
        state := rm.tool_calls.foldl (after_call_state secret) a.state,
        messages := a.messages ++ [Msg.assistant rm.content rm.tool_calls]
          ++ rm.tool_calls.map (tool_result_msg secret) } := by
  unfold process_tool_response
  rw [run_tool_calls_good secret rm.tool_calls h]

/-! Folding the state over a list of tool calls. -/

theorem after_call_state_end (secret : Int) (tc : ToolCall) :
    after_call_state secret GameState.END tc = GameState.END := by
  unfold after_call_state
  split <;> rfl

theorem foldl_after_end (secret : Int) (tcs : List ToolCall) :
    tcs.foldl (after_call_state secret) GameState.END = GameState.END := by
  induction tcs with
  | nil => rfl
  | cons tc rest ih => simp [List.foldl_cons, after_call_state_end, ih]

theorem foldl_after_wrong (secret : Int) (tcs : List ToolCall)
    (h : ∀ tc ∈ tcs, tc_correct secret tc = false) :
    ∀ s : GameState, tcs.foldl (after_call_state secret) s = s := by
  induction tcs with
  | nil => intro s; rfl
  | cons tc rest ih =>
    intro s
    have htc := h tc (List.mem_cons_self tc rest)
    rw [List.foldl_cons]
    have : after_call_state secret s tc = s := by
      unfold after_call_state
      rw [htc]
      rfl
    rw [this]
    exact ih (fun tc2 hm => h tc2 (List.mem_cons_of_mem tc hm)) s

theorem foldl_after_correct (secret : Int) (tcs : List ToolCall)
    (h : ∃ tc ∈ tcs, tc_correct secret tc = true) :
    ∀ s : GameState, tcs.foldl (after_call_state secret) s = GameState.END := by
  induction tcs with
  | nil => obtain ⟨tc, hm, _⟩ := h; exact absurd hm (List.not_mem_nil tc)
  | cons tc rest ih =>
    intro s
    rw [List.foldl_cons]
    by_cases hc : tc_correct secret tc = true
    · have : after_call_state secret s tc = GameState.END := by
        unfold after_call_state; rw [hc]; rfl
      rw [this, foldl_after_end]
    · obtain ⟨tc2, hm, hc2⟩ := h
      rcases List.mem_cons.mp hm with heq | hm2
      · exact absurd (heq ▸ hc2) hc
      · exact ih ⟨tc2, hm2, hc2⟩ _

/-! Exceptions carry the agent unchanged at each raise site; state END is
never left; messages only grow. -/

theorem dispatch_tool_call_error (secret : Int) (a : Agent) (tc : ToolCall)
    (e : String) (a2 : Agent)
    (h : dispatch_tool_call secret a tc = Except.error (e, a2)) : a2 = a := by
  unfold dispatch_tool_call at h
  rcases hg : tc.guessArg with _ | g <;> rw [hg] at h
  · cases h; rfl
  · by_cases hf : tc.fname = "evaluate_your_try" <;> simp [hf] at h
    exact h.2.symm

theorem dispatch_tool_call_ok_inv (secret : Int) (a : Agent) (tc : ToolCall)
    (a2 : Agent) (h : dispatch_tool_call secret a tc = Except.ok a2) :
    (a2.state = a.state ∨ a2.state = GameState.END) ∧
      ∃ m, a2.messages = a.messages ++ [m] := by
  unfold dispatch_tool_call at h
  rcases hg : tc.guessArg with _ | g <;> rw [hg] at h
  · cases h
  · by_cases hf : tc.fname = "evaluate_your_try" <;> simp [hf] at h
    rw [← h]
    by_cases hc : evaluate_your_try secret g = THAT_IS_RIGHT_MESSAGE <;>
      simp [hc]

theorem run_tool_calls_state_end (secret : Int) (tcs : List ToolCall) :
    ∀ a : Agent, a.state = GameState.END →
      (except_agent (run_tool_calls secret a tcs)).state = GameState.END := by
  induction tcs with
  | nil => intro a ha; simpa [run_tool_calls, except_agent] using ha
  | cons tc rest ih =>
    intro a ha
    unfold run_tool_calls
    rcases hd : dispatch_tool_call secret a tc with a2 | a2
    · obtain ⟨e, a3, rfl⟩ : ∃ e a3, a2 = (e, a3) := ⟨a2.1, a2.2, rfl⟩
      have := dispatch_tool_call_error secret a tc e a3 hd
      simp [except_agent, this, ha]
    · have h2 := dispatch_tool_call_ok_inv secret a tc a2 hd
      rcases h2.1 with hs | hs
      · exact ih a2 (hs.trans ha)
      · exact ih a2 hs

theorem run_tool_calls_messages_mono (secret : Int) (tcs : List ToolCall) :
    ∀ a : Agent, ∃ s,
      (except_agent (run_tool_calls secret a tcs)).messages = a.messages ++ s := by
  induction tcs with
  | nil => intro a; exact ⟨[], by simp [run_tool_calls, except_agent]⟩
  | cons tc rest ih =>
    intro a
    unfold run_tool_calls
    rcases hd : dispatch_tool_call secret a tc with a2 | a2
    · obtain ⟨e, a3, rfl⟩ : ∃ e a3, a2 = (e, a3) := ⟨a2.1, a2.2, rfl⟩
      have := dispatch_tool_call_error secret a tc e a3 hd
      exact ⟨[], by simp [except_agent, this]⟩
    · obtain ⟨_, m, hm⟩ := dispatch_tool_call_ok_inv secret a tc a2 hd
      obtain ⟨s, hs⟩ := ih a2
      exact ⟨[m] ++ s, by rw [hs, hm, List.append_assoc]⟩

theorem process_message_agent (a : Agent) (rm : ResponseMessage) :
    except_agent (process_message a rm) = a := by
  unfold process_message
  split <;> rfl

theorem call_llm_state_end (secret : Int) (tools : List String) (a : Agent)
    (r : LLMResult) (ha : a.state = GameState.END) :
    (except_agent (call_llm secret tools a r)).state = GameState.END := by
  unfold call_llm
  rcases r with rm | e
  · by_cases he : rm.tool_calls.isEmpty <;> simp [he]
    · rw [process_message_agent]; exact ha
    · unfold process_tool_response
      exact run_tool_calls_state_end secret rm.tool_calls _ ha
  · simpa [except_agent] using ha

theorem call_llm_messages_mono (secret : Int) (tools : List String) (a : Agent)
    (r : LLMResult) :
    ∃ s, (except_agent (call_llm secret tools a r)).messages = a.messages ++ s := by
  unfold call_llm
  rcases r with rm | e
  · by_cases he : rm.tool_calls.isEmpty <;> simp [he]
    · exact ⟨[], by rw [process_message_agent]; simp⟩
    · unfold process_tool_response
      obtain ⟨s, hs⟩ := run_tool_calls_messages_mono secret rm.tool_calls
        { a with messages := a.messages ++ [Msg.assistant rm.content rm.tool_calls] }
      exact ⟨[Msg.assistant rm.content rm.tool_calls] ++ s, by
        rw [hs]; simp [List.append_assoc]⟩
  · exact ⟨[], by simp [except_agent]⟩

/-! Step lemmas: what one model call does for each class of response. -/

theorem call_llm_wrong_step (secret : Int) (tools : List String) (a : Agent)
    (r : LLMResult) (h : wrong_tool_resp secret r = true) :
    ∃ rm : ResponseMessage, r = LLMResult.resp rm ∧
      call_llm secret tools a r =
        Except.ok { a with messages := a.messages
          ++ [Msg.assistant rm.content rm.tool_calls]
          ++ rm.tool_calls.map (tool_result_msg secret) } := by
  rcases r with rm | e
  · refine ⟨rm, rfl, ?_⟩
    unfold wrong_tool_resp at h
    rw [Bool.and_eq_true] at h
    obtain ⟨hne, hall⟩ := h
    rw [List.all_eq_true] at hall
    have hgood : ∀ tc ∈ rm.tool_calls, good_tool_call tc = true := by
      intro tc hm
      have h2 := hall tc hm
      rw [Bool.and_eq_true] at h2
      exact h2.1
    have hwrong : ∀ tc ∈ rm.tool_calls, tc_correct secret tc = false := by
      intro tc hm
      have h2 := hall tc hm
      rw [Bool.and_eq_true] at h2
      simpa using h2.2
    simp only [call_llm]
    rw [if_neg (by simpa using hne)]
    rw [process_tool_response_good secret a rm hgood]
    rw [foldl_after_wrong secret rm.tool_calls hwrong]
  · simp [wrong_tool_resp] at h

theorem call_llm_correct_step (secret : Int) (tools : List String) (a : Agent)
    (r : LLMResult) (h : correct_tool_resp secret r = true) :
    ∃ a2, call_llm secret tools a r = Except.ok a2 ∧
      a2.state = GameState.END := by
  rcases r with rm | e
  · unfold correct_tool_resp at h
    rw [Bool.and_eq_true] at h
    obtain ⟨h1, hany⟩ := h
    rw [Bool.and_eq_true] at h1
    obtain ⟨hne, hall⟩ := h1
    rw [List.all_eq_true] at hall
    rw [List.any_eq_true] at hany
    simp only [call_llm]
    rw [if_neg (by simpa using hne)]
    rw [process_tool_response_good secret a rm hall]
    refine ⟨_, rfl, ?_⟩
    exact foldl_after_correct secret rm.tool_calls hany a.state
  · simp [correct_tool_resp] at h

theorem call_llm_plain_step (secret : Int) (tools : List String) (a : Agent)
    (r : LLMResult) (hp : plain_resp r = true)
    (ha : a.state = GameState.PLAYING) :
    call_llm secret tools a r =
      Except.error ("Unexpected message from LLM during PLAYING state.", a) := by
  rcases r with rm | e
  · simp only [plain_resp] at hp
    simp only [call_llm]
    rw [if_pos hp]
    unfold process_message
    rw [if_pos ha]
  · simp [plain_resp] at hp

/-! Loop-level lemmas. -/

theorem play_loop_exitRounds_le (secret : Int) (oracle : Nat → LLMResult) :
    ∀ (remaining llm_try : Nat) (a : Agent),
      (play_loop secret oracle remaining llm_try a).exitRounds ≤ llm_try + remaining := by
  intro remaining
  induction remaining with
  | zero => intro llm_try a; simp [play_loop, LoopExit.exitRounds]
  | succ rem ih =>
    intro llm_try a
    simp only [play_loop]
    rcases h : call_llm secret g_tools a (oracle llm_try) with ⟨e, a2⟩ | a2
    · show (LoopExit.caught e a2 (llm_try + 1)).exitRounds ≤ llm_try + (rem + 1)
      simp only [LoopExit.exitRounds]
      omega
    · show (if a2.state = GameState.END then LoopExit.ended a2 (llm_try + 1)
          else play_loop secret oracle rem (llm_try + 1) a2).exitRounds ≤ llm_try + (rem + 1)
      by_cases hs : a2.state = GameState.END
      · rw [if_pos hs]
        simp only [LoopExit.exitRounds]
        omega
      · rw [if_neg hs]
        have := ih (llm_try + 1) a2
        omega

theorem play_loop_ended_state (secret : Int) (oracle : Nat → LLMResult) :
    ∀ (remaining llm_try : Nat) (a a2 : Agent) (r : Nat),
      play_loop secret oracle remaining llm_try a = LoopExit.ended a2 r →
      a2.state = GameState.END := by
  intro remaining
  induction remaining with
  | zero => intro llm_try a a2 r h; simp [play_loop] at h
  | succ rem ih =>
    intro llm_try a a2 r h
    simp only [play_loop] at h
    rcases hc : call_llm secret g_tools a (oracle llm_try) with ⟨e, a3⟩ | a3 <;>
      rw [hc] at h <;> simp at h
    by_cases hs : a3.state = GameState.END
    · rw [if_pos hs] at h
      obtain ⟨h1, -⟩ := LoopExit.ended.inj h
      exact h1 ▸ hs
    · rw [if_neg hs] at h
      exact ih (llm_try + 1) a3 a2 r h

theorem play_loop_wrong_steps (secret : Int) (oracle : Nat → LLMResult) :
    ∀ (i remaining llm_try : Nat) (a : Agent),
      a.state = GameState.PLAYING →
      (∀ n, llm_try ≤ n → n < llm_try + i → wrong_tool_resp secret (oracle n) = true) →
      i ≤ remaining →
      ∃ a2, play_loop secret oracle remaining llm_try a
          = play_loop secret oracle (remaining - i) (llm_try + i) a2
        ∧ a2.state = GameState.PLAYING
        ∧ ∃ s, a2.messages = a.messages ++ s := by
  intro i
  induction i with
  | zero => intro remaining llm_try a ha _ _; exact ⟨a, by simp, ha, [], by simp⟩
  | succ i ih =>
    intro remaining llm_try a ha hw hle
    obtain ⟨rem, rfl⟩ : ∃ rem, remaining = rem + 1 := ⟨remaining - 1, by omega⟩
    have hw0 : wrong_tool_resp secret (oracle llm_try) = true :=
      hw llm_try le_rfl (by omega)
    obtain ⟨rm, -, hcl⟩ := call_llm_wrong_step secret g_tools a (oracle llm_try) hw0
    have hstep : play_loop secret oracle (rem + 1) llm_try a =
        play_loop secret oracle rem (llm_try + 1)
          { a with messages := a.messages ++ [Msg.assistant rm.content rm.tool_calls]
              ++ rm.tool_calls.map (tool_result_msg secret) } := by
      simp only [play_loop]
      rw [hcl]
      simp [ha]
    obtain ⟨a2, heq, hp, s, hs⟩ := ih rem (llm_try + 1)
      { a with messages := a.messages ++ [Msg.assistant rm.content rm.tool_calls]
          ++ rm.tool_calls.map (tool_result_msg secret) }
      ha (fun n h1 h2 => hw n (by omega) (by omega)) (by omega)
    refine ⟨a2, ?_, hp, ?_⟩
    · rw [hstep, heq]
      have e1 : rem + 1 - (i + 1) = rem - i := by omega
      have e2 : llm_try + 1 + i = llm_try + (i + 1) := by omega
      rw [e1, e2]
    · refine ⟨[Msg.assistant rm.content rm.tool_calls]
        ++ rm.tool_calls.map (tool_result_msg secret) ++ s, ?_⟩
      rw [hs]
      simp [List.append_assoc]

/-! Play-level lemmas. -/

theorem play_epilogue_spec (secret : Int) (oracle : Nat → LLMResult) (a : Agent)
    (rounds : Nat) (caught : Option String) :
    (play_epilogue secret oracle a rounds caught).rounds = rounds ∧
    (play_epilogue secret oracle a rounds caught).calls = rounds + 1 ∧
    (play_epilogue secret oracle a rounds caught).caught = caught ∧
    (play_epilogue secret oracle a rounds caught).final_call = some ([] : List String) ∧
    (play_epilogue secret oracle a rounds caught).agent.state = GameState.END ∧
    Msg.user (final_user_message secret) ∈
      (play_epilogue secret oracle a rounds caught).agent.messages := by
  have hend := call_llm_state_end secret ([] : List String)
      { a with state := GameState.END,
               messages := a.messages ++ [Msg.user (final_user_message secret)] }
      (oracle rounds) rfl
  obtain ⟨s, hs⟩ := call_llm_messages_mono secret ([] : List String)
      { a with state := GameState.END,
               messages := a.messages ++ [Msg.user (final_user_message secret)] }
      (oracle rounds)
  unfold play_epilogue
  cases hcl : call_llm secret ([] : List String)
      { a with state := GameState.END,
               messages := a.messages ++ [Msg.user (final_user_message secret)] }
      (oracle rounds) with
  | error p =>
    obtain ⟨e, a3⟩ := p
    rw [hcl] at hend hs
    simp only [except_agent] at hend hs
    refine ⟨rfl, rfl, rfl, rfl, hend, ?_⟩
    rw [hs]
    simp
  | ok a3 =>
    rw [hcl] at hend hs
    simp only [except_agent] at hend hs
    refine ⟨rfl, rfl, rfl, rfl, hend, ?_⟩
    rw [hs]
    simp

theorem play_eq_finish (secret : Int) (oracle : Nat → LLMResult) (a0 : Agent) :
    play secret oracle a0 = play_finish secret oracle
      (play_loop secret oracle a0.max_tries 0
        { max_tries := a0.max_tries, state := GameState.PLAYING,
          messages := a0.messages }) := rfl

theorem mkAgent_max_tries (m : Nat) : (mkAgent m).max_tries = m := rfl

theorem mkAgent_messages (m : Nat) : (mkAgent m).messages = init_messages m := rfl

theorem play_state_end (secret : Int) (oracle : Nat → LLMResult) (a0 : Agent) :
    (play secret oracle a0).agent.state = GameState.END := by
  unfold play
  cases hl : play_loop secret oracle a0.max_tries 0 { a0 with state := GameState.PLAYING } with
  | ended a2 r =>
    exact play_loop_ended_state secret oracle a0.max_tries 0 _ a2 r hl
  | exhausted a2 r =>
    exact (play_epilogue_spec secret oracle a2 r none).2.2.2.2.1
  | caught e a2 r =>
    exact (play_epilogue_spec secret oracle a2 r (some e)).2.2.2.2.1

theorem play_rounds_le (secret : Int) (oracle : Nat → LLMResult) (a0 : Agent) :
    (play secret oracle a0).rounds ≤ a0.max_tries := by
  have h := play_loop_exitRounds_le secret oracle a0.max_tries 0
    { a0 with state := GameState.PLAYING }
  unfold play
  cases hl : play_loop secret oracle a0.max_tries 0 { a0 with state := GameState.PLAYING } with
  | ended a2 r =>
    rw [hl] at h
    simpa [play_finish, LoopExit.exitRounds] using h
  | exhausted a2 r =>
    rw [hl] at h
    simp only [LoopExit.exitRounds] at h
    simp only [play_finish]
    rw [(play_epilogue_spec secret oracle a2 r none).1]
    omega
  | caught e a2 r =>
    rw [hl] at h
    simp only [LoopExit.exitRounds] at h
    simp only [play_finish]
    rw [(play_epilogue_spec secret oracle a2 r (some e)).1]
    omega

theorem play_caught_spec (secret : Int) (oracle : Nat → LLMResult) (a0 : Agent)
    (e : String) (h : (play secret oracle a0).caught = some e) :
    (play secret oracle a0).agent.state = GameState.END ∧
    (play secret oracle a0).final_call = some ([] : List String) ∧
    (play secret oracle a0).calls = (play secret oracle a0).rounds + 1 ∧
    Msg.user (final_user_message secret) ∈ (play secret oracle a0).agent.messages := by
  unfold play at h ⊢
  cases hl : play_loop secret oracle a0.max_tries 0 { a0 with state := GameState.PLAYING } with
  | ended a2 r =>
    rw [hl] at h
    simp [play_finish] at h
  | exhausted a2 r =>
    rw [hl] at h
    simp only [play_finish] at h
    have := (play_epilogue_spec secret oracle a2 r none).2.2.1
    rw [this] at h
    cases h
  | caught e2 a2 r =>
    obtain ⟨h1, h2, h3, h4, h5, h6⟩ := play_epilogue_spec secret oracle a2 r (some e2)
    simp only [play_finish]
    exact ⟨h5, h4, by rw [h2, h1], h6⟩

theorem invocation_answered_elim {msgs : List Msg} {i : Nat} {tcs : List ToolCall}
    {j : Nat} (h : invocation_answered msgs i tcs j = true) :
    ∃ tc tid nm ct, tcs[j]? = some tc ∧
      msgs[i + 1 + j]? = some (Msg.tool tid nm ct) ∧ (tid == tc.id) = true := by
  unfold invocation_answered at h
  rcases h1 : tcs[j]? with _ | tc <;> rw [h1] at h
  · simp at h
  · rcases h2 : msgs[i + 1 + j]? with _ | m <;> rw [h2] at h
    · simp at h
    · cases m with
      | tool tid nm ct => exact ⟨tc, tid, nm, ct, rfl, rfl, h⟩
      | system c => simp at h
      | user c => simp at h
      | assistant c tcs2 => simp at h

theorem block_at_elim {msgs : List Msg} {i : Nat} {c : Option String}
    {tcs : List ToolCall} (hm : msgs[i]? = some (Msg.assistant c tcs))
    (hb : block_at msgs i = true) :
    ∀ j, j < tcs.length → invocation_answered msgs i tcs j = true := by
  intro j hj
  unfold block_at at hb
  rw [hm] at hb
  rw [List.all_eq_true] at hb
  exact hb j (List.mem_range.mpr hj)

theorem block_at_intro (msgs : List Msg) (i : Nat)
    (h : ∀ c tcs, msgs[i]? = some (Msg.assistant c tcs) →
      ∀ j, j < tcs.length → invocation_answered msgs i tcs j = true) :
    block_at msgs i = true := by
  unfold block_at
  rcases hm : msgs[i]? with _ | m
  · rfl
  · cases m with
    | assistant c tcs =>
      rw [List.all_eq_true]
      intro j hj
      exact h c tcs hm j (List.mem_range.mp hj)
    | system c => rfl
    | user c => rfl
    | tool tid nm ct => rfl

theorem transcript_ok_elim {msgs : List Msg} (h : transcript_ok msgs = true)
    (i : Nat) : block_at msgs i = true := by
  by_cases hi : i < msgs.length
  · unfold transcript_ok at h
    rw [List.all_eq_true] at h
    exact h i (List.mem_range.mpr hi)
  · unfold block_at
    rw [List.getElem?_eq_none (by omega)]

theorem transcript_ok_intro (msgs : List Msg)
    (h : ∀ i, i < msgs.length → block_at msgs i = true) :
    transcript_ok msgs = true := by
  unfold transcript_ok
  rw [List.all_eq_true]
  intro i hi
  exact h i (List.mem_range.mp hi)

theorem transcript_ok_append {xs ys : List Msg}
    (hx : transcript_ok xs = true) (hy : transcript_ok ys = true) :
    transcript_ok (xs ++ ys) = true := by
  apply transcript_ok_intro
  intro i hi
  apply block_at_intro
  intro c tcs hm j hj
  by_cases hlt : i < xs.length
  · rw [List.getElem?_append_left hlt] at hm
    obtain ⟨tc, tid, nm, ct, h1, h2, h3⟩ :=
      invocation_answered_elim (block_at_elim hm (transcript_ok_elim hx i) j hj)
    have hidx : i + 1 + j < xs.length := by
      rcases List.getElem?_eq_some.mp h2 with ⟨hh, -⟩
      exact hh
    unfold invocation_answered
    rw [h1, List.getElem?_append_left hidx, h2]
    exact h3
  · have hge : xs.length ≤ i := by omega
    rw [List.getElem?_append_right hge] at hm
    obtain ⟨tc, tid, nm, ct, h1, h2, h3⟩ :=
      invocation_answered_elim
        (block_at_elim hm (transcript_ok_elim hy (i - xs.length)) j hj)
    have hge2 : xs.length ≤ i + 1 + j := by omega
    unfold invocation_answered
    rw [h1, List.getElem?_append_right hge2]
    have hidx : i + 1 + j - xs.length = i - xs.length + 1 + j := by omega
    rw [hidx, h2]
    exact h3

theorem transcript_ok_singleton_user (m : String) :
    transcript_ok [Msg.user m] = true := rfl

theorem transcript_ok_init (mt : Nat) :
    transcript_ok (init_messages mt) = true := rfl

theorem transcript_ok_tool_block (secret : Int) (c : Option String) (tcs : List ToolCall) :
    transcript_ok (Msg.assistant c tcs :: tcs.map (tool_result_msg secret)) = true := by
  apply transcript_ok_intro
  intro i hi
  apply block_at_intro
  intro c2 tcs2 hm j hj
  cases i with
  | zero =>
    rw [List.getElem?_cons_zero] at hm
    obtain ⟨-, htcs⟩ := Msg.assistant.inj (Option.some.inj hm)
    subst htcs
    have hj' : j < tcs.length := hj
    unfold invocation_answered
    rw [List.getElem?_eq_getElem hj']
    have hmj : (Msg.assistant c tcs :: tcs.map (tool_result_msg secret))[0 + 1 + j]? =
        some (tool_result_msg secret tcs[j]) := by
      have he : 0 + 1 + j = j + 1 := by omega
      rw [he, List.getElem?_cons_succ]
      rw [List.getElem?_eq_getElem (by simpa using hj')]
      rw [List.getElem_map]
    rw [hmj]
    unfold tool_result_msg
    exact beq_self_eq_true _
  | succ k =>
    rw [List.getElem?_cons_succ] at hm
    rcases hk : tcs[k]? with _ | tc
    · rw [List.getElem?_map, hk] at hm
      cases hm
    · rw [List.getElem?_map, hk] at hm
      simp only [Option.map_some'] at hm
      have := Option.some.inj hm
      unfold tool_result_msg at this
      cases this

/-! Preservation of the transcript invariant through a run. -/

theorem call_llm_transcript (secret : Int) (tools : List String) (a : Agent)
    (r : LLMResult) (hr : good_result r = true)
    (ht : transcript_ok a.messages = true) :
    transcript_ok (except_agent (call_llm secret tools a r)).messages = true := by
  rcases r with rm | e
  · by_cases he : rm.tool_calls.isEmpty
    · have heq : except_agent (call_llm secret tools a (LLMResult.resp rm)) = a := by
        simp only [call_llm]
        rw [if_pos he]
        exact process_message_agent a rm
      rw [heq]
      exact ht
    · have hgood : ∀ tc ∈ rm.tool_calls, good_tool_call tc = true := by
        simp only [good_result] at hr
        rw [List.all_eq_true] at hr
        exact hr
      have heq : except_agent (call_llm secret tools a (LLMResult.resp rm)) =
          { a with
            state := rm.tool_calls.foldl (after_call_state secret) a.state,
            messages := a.messages ++ [Msg.assistant rm.content rm.tool_calls]
              ++ rm.tool_calls.map (tool_result_msg secret) } := by
        simp only [call_llm]
        rw [if_neg he, process_tool_response_good secret a rm hgood]
        rfl
      rw [heq]
      show transcript_ok (a.messages ++ [Msg.assistant rm.content rm.tool_calls]
        ++ rm.tool_calls.map (tool_result_msg secret)) = true
      rw [List.append_assoc]
      exact transcript_ok_append ht
        (transcript_ok_tool_block secret rm.content rm.tool_calls)
  · simpa [call_llm, except_agent] using ht

theorem play_loop_transcript (secret : Int) (oracle : Nat → LLMResult)
    (hor : ∀ n, good_result (oracle n) = true) :
    ∀ (remaining llm_try : Nat) (a : Agent), transcript_ok a.messages = true →
      transcript_ok (play_loop secret oracle remaining llm_try a).exitAgent.messages = true := by
  intro remaining
  induction remaining with
  | zero =>
    intro llm_try a ht
    simpa [play_loop, LoopExit.exitAgent] using ht
  | succ rem ih =>
    intro llm_try a ht
    have hstep := call_llm_transcript secret g_tools a (oracle llm_try) (hor llm_try) ht
    simp only [play_loop]
    rcases hcl : call_llm secret g_tools a (oracle llm_try) with ⟨e, a2⟩ | a2
    · rw [hcl] at hstep
      simpa [except_agent, LoopExit.exitAgent] using hstep
    · rw [hcl] at hstep
      simp only [except_agent] at hstep
      show transcript_ok (if a2.state = GameState.END then LoopExit.ended a2 (llm_try + 1)
          else play_loop secret oracle rem (llm_try + 1) a2).exitAgent.messages = true
      by_cases hs : a2.state = GameState.END
      · rw [if_pos hs]
        simpa [LoopExit.exitAgent] using hstep
      · rw [if_neg hs]
        exact ih (llm_try + 1) a2 hstep

theorem play_epilogue_transcript (secret : Int) (oracle : Nat → LLMResult)
    (a : Agent) (rounds : Nat) (caught : Option String)
    (hr : good_result (oracle rounds) = true)
    (ht : transcript_ok a.messages = true) :
    transcript_ok (play_epilogue secret oracle a rounds caught).agent.messages = true := by
  have ht2 : transcript_ok (a.messages ++ [Msg.user (final_user_message secret)]) = true :=
    transcript_ok_append ht (transcript_ok_singleton_user _)
  have hstep := call_llm_transcript secret ([] : List String)
    { a with state := GameState.END,
             messages := a.messages ++ [Msg.user (final_user_message secret)] }
    (oracle rounds) hr ht2
  unfold play_epilogue
  cases hcl : call_llm secret ([] : List String)
      { a with state := GameState.END,
               messages := a.messages ++ [Msg.user (final_user_message secret)] }
      (oracle rounds) with
  | error p =>
    obtain ⟨e, a3⟩ := p
    rw [hcl] at hstep
    simpa [except_agent] using hstep
  | ok a3 =>
    rw [hcl] at hstep
    simpa [except_agent] using hstep

theorem play_transcript (secret : Int) (oracle : Nat → LLMResult) (a0 : Agent)
    (hor : ∀ n, good_result (oracle n) = true)
    (ht : transcript_ok a0.messages = true) :
    transcript_ok (play secret oracle a0).agent.messages = true := by
  have hloop := play_loop_transcript secret oracle hor a0.max_tries 0
    { a0 with state := GameState.PLAYING } ht
  unfold play
  cases hl : play_loop secret oracle a0.max_tries 0 { a0 with state := GameState.PLAYING } with
  | ended a2 r =>
    rw [hl] at hloop
    simpa [play_finish, LoopExit.exitAgent] using hloop
  | exhausted a2 r =>
    rw [hl] at hloop
    simp only [LoopExit.exitAgent] at hloop
    exact play_epilogue_transcript secret oracle a2 r none (hor r) hloop
  | caught e a2 r =>
    rw [hl] at hloop
    simp only [LoopExit.exitAgent] at hloop
    exact play_epilogue_transcript secret oracle a2 r (some e) (hor r) hloop

/-! Claim theorems. -/

/-- C1: For all integers guess and secret in [1,100], the evaluator returns
exactly one of three results, mutually exclusively: "That's right!" iff
guess = secret, "Too high!" iff guess > secret, and "Too low!" iff
guess < secret. -/
theorem evaluate_your_try_trichotomy (guess secret : Int)
    (_hg1 : 1 ≤ guess) (_hg2 : guess ≤ 100) (_hs1 : 1 ≤ secret) (_hs2 : secret ≤ 100) :
    (evaluate_your_try secret guess = THAT_IS_RIGHT_MESSAGE ↔ guess = secret) ∧
    (evaluate_your_try secret guess = TOO_HIGH_MESSAGE ↔ guess > secret) ∧
    (evaluate_your_try secret guess = TOO_LOW_MESSAGE ↔ guess < secret) ∧
    (evaluate_your_try secret guess = THAT_IS_RIGHT_MESSAGE ∨
      evaluate_your_try secret guess = TOO_HIGH_MESSAGE ∨
      evaluate_your_try secret guess = TOO_LOW_MESSAGE) := by
  have hHL : TOO_HIGH_MESSAGE ≠ TOO_LOW_MESSAGE := by decide
  have hHR : TOO_HIGH_MESSAGE ≠ THAT_IS_RIGHT_MESSAGE := by decide
  have hLR : TOO_LOW_MESSAGE ≠ THAT_IS_RIGHT_MESSAGE := by decide
  unfold evaluate_your_try
  rcases lt_trichotomy guess secret with h | h | h
  · rw [if_neg (by omega), if_pos h]
    exact ⟨iff_of_false hLR (by omega), iff_of_false (fun hx => hHL hx.symm) (by omega),
      iff_of_true rfl h, Or.inr (Or.inr rfl)⟩
  · rw [if_neg (by omega), if_neg (by omega)]
    exact ⟨iff_of_true rfl h, iff_of_false (fun hx => hHR hx.symm) (by omega),
      iff_of_false (fun hx => hLR hx.symm) (by omega), Or.inl rfl⟩
  · rw [if_pos h]
    exact ⟨iff_of_false hHR (by omega), iff_of_true rfl h,
      iff_of_false hHL (by omega), Or.inr (Or.inl rfl)⟩

/-- Witness for C1: at guess 70, secret 42 the evaluator answers
"Too high!", and 70 = 42 is excluded. -/
theorem evaluate_your_try_trichotomy_witness :
    evaluate_your_try 42 70 = TOO_HIGH_MESSAGE ∧ ¬ (70 : Int) = 42 :=
  ⟨(evaluate_your_try_trichotomy 70 42 (by decide) (by decide) (by decide)
      (by decide)).2.1.mpr (by decide),
    by decide⟩

/-- C2: for every run of play() in which every evaluator result is
non-correct, at most max_tries guessing rounds are performed and
termination ends with the state forced to ENDED. -/
theorem play_bounded_rounds (secret : Int) (oracle : Nat → LLMResult)
    (max_tries : Nat) (_h : ∀ n, correct_free secret (oracle n) = true) :
    (play secret oracle (mkAgent max_tries)).rounds ≤ max_tries ∧
    (play secret oracle (mkAgent max_tries)).agent.state = GameState.END :=
  ⟨play_rounds_le secret oracle (mkAgent max_tries),
    play_state_end secret oracle (mkAgent max_tries)⟩

/-- Witness for C2: a model that always guesses 50 against secret 7 with
max_tries 3. -/
theorem play_bounded_rounds_witness :
    (play 7 (fun _ => LLMResult.resp ⟨none, [⟨"c1", "evaluate_your_try", some 50⟩]⟩)
      (mkAgent 3)).rounds ≤ 3 ∧
    (play 7 (fun _ => LLMResult.resp ⟨none, [⟨"c1", "evaluate_your_try", some 50⟩]⟩)
      (mkAgent 3)).agent.state = GameState.END :=
  play_bounded_rounds 7 _ 3 (fun _ => by decide)

/-- C3: if attempts 1..k-1 carry well-formed wrong guesses and the tool
invocation on attempt k (1 ≤ k ≤ max_tries) carries a guess equal to the
secret, then the game ends within round k: state is ENDED, play returns
after exactly k rounds and k model calls, with no caught exception and no
post-loss final call. -/
theorem correct_guess_ends_game (secret : Int) (oracle : Nat → LLMResult)
    (max_tries k : Nat) (hk1 : 1 ≤ k) (hk2 : k ≤ max_tries)
    (hw : ∀ n, n + 1 < k → wrong_tool_resp secret (oracle n) = true)
    (hc : correct_tool_resp secret (oracle (k - 1)) = true) :
    (play secret oracle (mkAgent max_tries)).rounds = k ∧
    (play secret oracle (mkAgent max_tries)).agent.state = GameState.END ∧
    (play secret oracle (mkAgent max_tries)).caught = none ∧
    (play secret oracle (mkAgent max_tries)).final_call = none ∧
    (play secret oracle (mkAgent max_tries)).calls = k := by
  rw [play_eq_finish, mkAgent_max_tries, mkAgent_messages]
  obtain ⟨a2, heq, ha2, -⟩ := play_loop_wrong_steps secret oracle (k - 1) max_tries 0
    { max_tries := max_tries, state := GameState.PLAYING,
      messages := init_messages max_tries } rfl
    (fun n h1 h2 => hw n (by omega)) (by omega)
  obtain ⟨rem, hrem⟩ : ∃ rem, max_tries - (k - 1) = rem + 1 := ⟨max_tries - k, by omega⟩
  rw [Nat.zero_add, hrem] at heq
  obtain ⟨a3, hcl, hend⟩ := call_llm_correct_step secret g_tools a2 (oracle (k - 1)) hc
  have hstep : play_loop secret oracle (rem + 1) (k - 1) a2 =
      LoopExit.ended a3 (k - 1 + 1) := by
    simp only [play_loop]
    rw [hcl]
    show (if a3.state = GameState.END then LoopExit.ended a3 (k - 1 + 1)
        else play_loop secret oracle rem (k - 1 + 1) a3) = LoopExit.ended a3 (k - 1 + 1)
    rw [if_pos hend]
  have hke : k - 1 + 1 = k := by omega
  have hfull : play_loop secret oracle max_tries 0
      { max_tries := max_tries, state := GameState.PLAYING,
        messages := init_messages max_tries } = LoopExit.ended a3 k := by
    rw [heq, hstep, hke]
  rw [hfull]
  exact ⟨rfl, hend, rfl, rfl, rfl⟩

/-- Witness for C3: secret 42, max_tries 5; attempt 1 guesses 70 (wrong),
attempt 2 guesses 42 (right); the game ends after exactly 2 rounds. -/
theorem correct_guess_ends_game_witness :
    (play 42 (fun n => if n = 0
        then LLMResult.resp ⟨none, [⟨"c1", "evaluate_your_try", some 70⟩]⟩
        else LLMResult.resp ⟨none, [⟨"c2", "evaluate_your_try", some 42⟩]⟩)
      (mkAgent 5)).rounds = 2 ∧
    (play 42 (fun n => if n = 0
        then LLMResult.resp ⟨none, [⟨"c1", "evaluate_your_try", some 70⟩]⟩
        else LLMResult.resp ⟨none, [⟨"c2", "evaluate_your_try", some 42⟩]⟩)
      (mkAgent 5)).agent.state = GameState.END ∧
    (play 42 (fun n => if n = 0
        then LLMResult.resp ⟨none, [⟨"c1", "evaluate_your_try", some 70⟩]⟩
        else LLMResult.resp ⟨none, [⟨"c2", "evaluate_your_try", some 42⟩]⟩)
      (mkAgent 5)).caught = none ∧
    (play 42 (fun n => if n = 0
        then LLMResult.resp ⟨none, [⟨"c1", "evaluate_your_try", some 70⟩]⟩
        else LLMResult.resp ⟨none, [⟨"c2", "evaluate_your_try", some 42⟩]⟩)
      (mkAgent 5)).final_call = none ∧
    (play 42 (fun n => if n = 0
        then LLMResult.resp ⟨none, [⟨"c1", "evaluate_your_try", some 70⟩]⟩
        else LLMResult.resp ⟨none, [⟨"c2", "evaluate_your_try", some 42⟩]⟩)
      (mkAgent 5)).calls = 2 :=
  correct_guess_ends_game 42 _ 5 2 (by decide) (by decide)
    (fun n hn => by
      have hz : n = 0 := by omega
      subst hz
      decide)
    (by decide)

/-- C4 (counterexample): the claim that the appended tool-result turn's
content is one of the three literal strings verbatim fails: processing the
guess 50 against secret 5 appends a tool turn whose content is the
json.dumps serialization (the message wrapped in double quotes), which is
none of the three literal strings. -/
theorem tool_result_not_verbatim :
    (except_agent (process_tool_response 5 (mkAgent 5)
        ⟨none, [⟨"call_1", "evaluate_your_try", some 50⟩]⟩)).messages.getLast? =
      some (Msg.tool "call_1" "evaluate_your_try" "\"Too high!\"") ∧
    ¬ ("\"Too high!\"" = TOO_HIGH_MESSAGE ∨ "\"Too high!\"" = TOO_LOW_MESSAGE ∨
       "\"Too high!\"" = THAT_IS_RIGHT_MESSAGE) := by
  decide

/-- C4 (amended): for every well-formed tool invocation processed, the
content of the appended tool-result turn is the json.dumps serialization
of exactly one of the three literal strings "Too high!", "Too low!",
"That's right!" (the message wrapped in double quotes). -/
theorem tool_result_content_serialized (secret : Int) (a : Agent)
    (rm : ResponseMessage)
    (h : ∀ tc ∈ rm.tool_calls, good_tool_call tc = true) :
    ∃ a2, process_tool_response secret a rm = Except.ok a2 ∧
      a2.messages = a.messages ++ [Msg.assistant rm.content rm.tool_calls]
        ++ rm.tool_calls.map (tool_result_msg secret) ∧
      ∀ tc ∈ rm.tool_calls,
        tool_result_msg secret tc
            = Msg.tool tc.id tc.fname (json_dumps_string TOO_HIGH_MESSAGE) ∨
        tool_result_msg secret tc
            = Msg.tool tc.id tc.fname (json_dumps_string TOO_LOW_MESSAGE) ∨
        tool_result_msg secret tc
            = Msg.tool tc.id tc.fname (json_dumps_string THAT_IS_RIGHT_MESSAGE) := by
  refine ⟨_, process_tool_response_good secret a rm h, rfl, ?_⟩
  intro tc _
  unfold tool_result_msg evaluate_your_try
  by_cases h1 : tc.guessArg.getD 0 > secret
  · rw [if_pos h1]
    exact Or.inl rfl
  · rw [if_neg h1]
    by_cases h2 : tc.guessArg.getD 0 < secret
    · rw [if_pos h2]
      exact Or.inr (Or.inl rfl)
    · rw [if_neg h2]
      exact Or.inr (Or.inr rfl)

/-- Witness for the amended C4 at secret 5, one invocation guessing 50. -/
theorem tool_result_content_serialized_witness :
    ∃ a2, process_tool_response 5 (mkAgent 5)
        ⟨none, [⟨"call_1", "evaluate_your_try", some 50⟩]⟩ = Except.ok a2 ∧
      a2.messages = (mkAgent 5).messages
        ++ [Msg.assistant none [⟨"call_1", "evaluate_your_try", some 50⟩]]
        ++ ([⟨"call_1", "evaluate_your_try", some 50⟩] : List ToolCall).map (tool_result_msg 5) ∧
      ∀ tc ∈ ([⟨"call_1", "evaluate_your_try", some 50⟩] : List ToolCall),
        tool_result_msg 5 tc
            = Msg.tool tc.id tc.fname (json_dumps_string TOO_HIGH_MESSAGE) ∨
        tool_result_msg 5 tc
            = Msg.tool tc.id tc.fname (json_dumps_string TOO_LOW_MESSAGE) ∨
        tool_result_msg 5 tc
            = Msg.tool tc.id tc.fname (json_dumps_string THAT_IS_RIGHT_MESSAGE) :=
  tool_result_content_serialized 5 (mkAgent 5)
    ⟨none, [⟨"call_1", "evaluate_your_try", some 50⟩]⟩ (by decide)

/-- C5: if attempts 1..k-1 carry well-formed wrong tool guesses and the
model's k-th response (1 ≤ k ≤ max_tries) is a plain reply with no tool
invocation while the state is PLAYING, the plain-message handler raises
the protocol-violation error, it is caught by play()'s top-level handler,
and the game ends in round k: no further attempt rounds run and the state
is ENDED. -/
theorem plain_reply_protocol_violation (secret : Int) (oracle : Nat → LLMResult)
    (max_tries k : Nat) (hk1 : 1 ≤ k) (hk2 : k ≤ max_tries)
    (hw : ∀ n, n + 1 < k → wrong_tool_resp secret (oracle n) = true)
    (hp : plain_resp (oracle (k - 1)) = true) :
    (play secret oracle (mkAgent max_tries)).caught =
      some "Unexpected message from LLM during PLAYING state." ∧
    (play secret oracle (mkAgent max_tries)).rounds = k ∧
    (play secret oracle (mkAgent max_tries)).agent.state = GameState.END := by
  rw [play_eq_finish, mkAgent_max_tries, mkAgent_messages]
  obtain ⟨a2, heq, ha2, -⟩ := play_loop_wrong_steps secret oracle (k - 1) max_tries 0
    { max_tries := max_tries, state := GameState.PLAYING,
      messages := init_messages max_tries } rfl
    (fun n h1 h2 => hw n (by omega)) (by omega)
  obtain ⟨rem, hrem⟩ : ∃ rem, max_tries - (k - 1) = rem + 1 := ⟨max_tries - k, by omega⟩
  rw [Nat.zero_add, hrem] at heq
  have hcl := call_llm_plain_step secret g_tools a2 (oracle (k - 1)) hp ha2
  have hstep : play_loop secret oracle (rem + 1) (k - 1) a2 =
      LoopExit.caught "Unexpected message from LLM during PLAYING state." a2 (k - 1 + 1) := by
    simp only [play_loop]
    rw [hcl]
  have hke : k - 1 + 1 = k := by omega
  have hfull : play_loop secret oracle max_tries 0
      { max_tries := max_tries, state := GameState.PLAYING,
        messages := init_messages max_tries } =
      LoopExit.caught "Unexpected message from LLM during PLAYING state." a2 k := by
    rw [heq, hstep, hke]
  rw [hfull]
  simp only [play_finish]
  obtain ⟨h1, -, h3, -, h5, -⟩ := play_epilogue_spec secret oracle a2 k
    (some "Unexpected message from LLM during PLAYING state.")
  exact ⟨h3, h1, h5⟩

/-- Witness for C5: max_tries 5, secret 9; the first response is a plain
text reply, so the game ends in round 1 with the protocol violation. -/
theorem plain_reply_protocol_violation_witness :
    (play 9 (fun _ => LLMResult.resp ⟨some "I sense an aura", []⟩)
      (mkAgent 5)).caught =
      some "Unexpected message from LLM during PLAYING state." ∧
    (play 9 (fun _ => LLMResult.resp ⟨some "I sense an aura", []⟩)
      (mkAgent 5)).rounds = 1 ∧
    (play 9 (fun _ => LLMResult.resp ⟨some "I sense an aura", []⟩)
      (mkAgent 5)).agent.state = GameState.END :=
  plain_reply_protocol_violation 9 _ 5 1 (by decide) (by decide)
    (fun n hn => absurd hn (by omega)) (by decide)

/-- C6 (counterexample): the claim that after a caught exception no further
model calls are made and no exception escapes play() fails: with max_tries
1 and a transport error on every call, the loop's exception is caught and
printed, but the epilogue then issues a second model call, and the
exception raised there escapes play(). -/
theorem exception_termination_counterexample :
    (play 5 (fun _ => LLMResult.err "boom") (mkAgent 1)).caught = some "boom" ∧
    (play 5 (fun _ => LLMResult.err "boom") (mkAgent 1)).rounds = 1 ∧
    (play 5 (fun _ => LLMResult.err "boom") (mkAgent 1)).calls = 2 ∧
    (play 5 (fun _ => LLMResult.err "boom") (mkAgent 1)).escaped = some "boom" := by
  decide

/-- C6 (amended): every exception raised while calling the model or
dispatching the tool inside the guessing loop is caught at the top of
play() and the state is forced to ENDED; however, one further model call
(the tools-disabled post-loss call) is then issued, and an exception
raised during that final call escapes play(). -/
theorem exception_caught_forces_end (secret : Int) (oracle : Nat → LLMResult)
    (a0 : Agent) (e : String)
    (h : (play secret oracle a0).caught = some e) :
    (play secret oracle a0).agent.state = GameState.END ∧
    (play secret oracle a0).final_call = some ([] : List String) ∧
    (play secret oracle a0).calls = (play secret oracle a0).rounds + 1 := by
  obtain ⟨h1, h2, h3, -⟩ := play_caught_spec secret oracle a0 e h
  exact ⟨h1, h2, h3⟩

/-- Witness for the amended C6: a transport error on every call with
max_tries 2. -/
theorem exception_caught_forces_end_witness :
    (play 8 (fun _ => LLMResult.err "kaput") (mkAgent 2)).agent.state = GameState.END ∧
    (play 8 (fun _ => LLMResult.err "kaput") (mkAgent 2)).final_call = some ([] : List String) ∧
    (play 8 (fun _ => LLMResult.err "kaput") (mkAgent 2)).calls =
      (play 8 (fun _ => LLMResult.err "kaput") (mkAgent 2)).rounds + 1 :=
  exception_caught_forces_end 8 _ (mkAgent 2) "kaput" (by decide)

/-- C7: in every transcript produced by a play() run whose oracle respects
the LLM-client contract (every invocation names the registered function
and carries parseable arguments), each assistant turn carrying tool
invocations is immediately followed by one tool-result turn per
invocation, with matching tool_call_id values, in invocation order. -/
theorem transcript_tool_pairing (secret : Int) (oracle : Nat → LLMResult)
    (max_tries : Nat) (h : ∀ n, good_result (oracle n) = true) :
    transcript_ok (play secret oracle (mkAgent max_tries)).agent.messages = true :=
  play_transcript secret oracle (mkAgent max_tries) h (transcript_ok_init max_tries)

/-- Witness for C7: one tool round then plain replies, secret 5,
max_tries 2. -/
theorem transcript_tool_pairing_witness :
    transcript_ok (play 5 (fun n => match n with
      | 0 => LLMResult.resp ⟨none, [⟨"id1", "evaluate_your_try", some 3⟩]⟩
      | _ + 1 => LLMResult.resp ⟨some "done", []⟩)
      (mkAgent 2)).agent.messages = true :=
  transcript_tool_pairing 5 _ 2 (fun n => by cases n <;> rfl)

/-- C8: when all max_tries rounds complete with well-formed wrong guesses
(the loop exits without ENDED), the state is forced to ENDED, the
"You lost" message is appended as a user turn, and exactly one additional
model call is issued with tools disabled (max_tries + 1 calls in total),
with no further guessing round. -/
theorem attempts_exhausted_epilogue (secret : Int) (oracle : Nat → LLMResult)
    (max_tries : Nat)
    (hw : ∀ n, n < max_tries → wrong_tool_resp secret (oracle n) = true) :
    (play secret oracle (mkAgent max_tries)).rounds = max_tries ∧
    (play secret oracle (mkAgent max_tries)).caught = none ∧
    (play secret oracle (mkAgent max_tries)).agent.state = GameState.END ∧
    Msg.user (final_user_message secret) ∈
      (play secret oracle (mkAgent max_tries)).agent.messages ∧
    (play secret oracle (mkAgent max_tries)).final_call = some ([] : List String) ∧
    (play secret oracle (mkAgent max_tries)).calls = max_tries + 1 := by
  rw [play_eq_finish, mkAgent_max_tries, mkAgent_messages]
  obtain ⟨a2, heq, ha2, -⟩ := play_loop_wrong_steps secret oracle max_tries max_tries 0
    { max_tries := max_tries, state := GameState.PLAYING,
      messages := init_messages max_tries } rfl
    (fun n h1 h2 => hw n (by omega)) (by omega)
  rw [Nat.zero_add, Nat.sub_self] at heq
  have hfull : play_loop secret oracle max_tries 0
      { max_tries := max_tries, state := GameState.PLAYING,
        messages := init_messages max_tries } = LoopExit.exhausted a2 max_tries := by
    rw [heq]
    rfl
  rw [hfull]
  simp only [play_finish]
  obtain ⟨h1, h2, h3, h4, h5, h6⟩ := play_epilogue_spec secret oracle a2 max_tries none
  exact ⟨h1, h3, h5, h6, h4, h2⟩

/-- Witness for C8: secret 7, max_tries 2, guesses 50 then 90 (both
wrong), then a plain reaction; two rounds run, then one final call. -/
theorem attempts_exhausted_epilogue_witness :
    (play 7 (fun n => match n with
      | 0 => LLMResult.resp ⟨none, [⟨"a", "evaluate_your_try", some 50⟩]⟩
      | 1 => LLMResult.resp ⟨none, [⟨"b", "evaluate_your_try", some 90⟩]⟩
      | _ + 2 => LLMResult.resp ⟨some "oh no", []⟩) (mkAgent 2)).rounds = 2 ∧
    (play 7 (fun n => match n with
      | 0 => LLMResult.resp ⟨none, [⟨"a", "evaluate_your_try", some 50⟩]⟩
      | 1 => LLMResult.resp ⟨none, [⟨"b", "evaluate_your_try", some 90⟩]⟩
      | _ + 2 => LLMResult.resp ⟨some "oh no", []⟩) (mkAgent 2)).caught = none ∧
    (play 7 (fun n => match n with
      | 0 => LLMResult.resp ⟨none, [⟨"a", "evaluate_your_try", some 50⟩]⟩
      | 1 => LLMResult.resp ⟨none, [⟨"b", "evaluate_your_try", some 90⟩]⟩
      | _ + 2 => LLMResult.resp ⟨some "oh no", []⟩) (mkAgent 2)).agent.state = GameState.END ∧
    Msg.user (final_user_message 7) ∈
      (play 7 (fun n => match n with
        | 0 => LLMResult.resp ⟨none, [⟨"a", "evaluate_your_try", some 50⟩]⟩
        | 1 => LLMResult.resp ⟨none, [⟨"b", "evaluate_your_try", some 90⟩]⟩
        | _ + 2 => LLMResult.resp ⟨some "oh no", []⟩) (mkAgent 2)).agent.messages ∧
    (play 7 (fun n => match n with
      | 0 => LLMResult.resp ⟨none, [⟨"a", "evaluate_your_try", some 50⟩]⟩
      | 1 => LLMResult.resp ⟨none, [⟨"b", "evaluate_your_try", some 90⟩]⟩
      | _ + 2 => LLMResult.resp ⟨some "oh no", []⟩) (mkAgent 2)).final_call = some ([] : List String) ∧
    (play 7 (fun n => match n with
      | 0 => LLMResult.resp ⟨none, [⟨"a", "evaluate_your_try", some 50⟩]⟩
      | 1 => LLMResult.resp ⟨none, [⟨"b", "evaluate_your_try", some 90⟩]⟩
      | _ + 2 => LLMResult.resp ⟨some "oh no", []⟩) (mkAgent 2)).calls = 2 + 1 :=
  attempts_exhausted_epilogue 7 _ 2
    (fun n hn => by
      rcases n with _ | n
      · decide
      · rcases n with _ | n
        · decide
        · exact absurd hn (by omega))

/-- C9: when a response carries several well-formed invocations and at
least one guess equals the secret, processing does not stop early: every
invocation still yields its own tool-result turn (one per invocation, in
order), and the final state is ENDED. -/
theorem correct_guess_does_not_stop_processing (secret : Int) (a : Agent)
    (rm : ResponseMessage)
    (hg : ∀ tc ∈ rm.tool_calls, good_tool_call tc = true)
    (hc : ∃ tc ∈ rm.tool_calls, tc_correct secret tc = true) :
    ∃ a2, process_tool_response secret a rm = Except.ok a2 ∧
      a2.messages = a.messages ++ [Msg.assistant rm.content rm.tool_calls]
        ++ rm.tool_calls.map (tool_result_msg secret) ∧
      a2.state = GameState.END := by
  refine ⟨_, process_tool_response_good secret a rm hg, rfl, ?_⟩
  exact foldl_after_correct secret rm.tool_calls hc a.state

/-- Witness for C9: two invocations, the first one correct (secret 10);
both are processed and both turns are appended. -/
theorem correct_guess_does_not_stop_processing_witness :
    ∃ a2, process_tool_response 10 (mkAgent 5)
        ⟨none, [⟨"x", "evaluate_your_try", some 10⟩,
                ⟨"y", "evaluate_your_try", some 50⟩]⟩ = Except.ok a2 ∧
      a2.messages = (mkAgent 5).messages
        ++ [Msg.assistant none [⟨"x", "evaluate_your_try", some 10⟩,
                                ⟨"y", "evaluate_your_try", some 50⟩]]
        ++ ([⟨"x", "evaluate_your_try", some 10⟩,
             ⟨"y", "evaluate_your_try", some 50⟩] : List ToolCall).map (tool_result_msg 10) ∧
      a2.state = GameState.END :=
  correct_guess_does_not_stop_processing 10 (mkAgent 5)
    ⟨none, [⟨"x", "evaluate_your_try", some 10⟩,
            ⟨"y", "evaluate_your_try", some 50⟩]⟩ (by decide) (by decide)

/-- C10: after an exception is caught in the guessing loop (including the
protocol violation), execution falls through to the same epilogue as the
attempts-exhausted path: the state is ENDED, a user turn revealing the
secret is appended, and one additional tools-disabled model call is
issued. -/
theorem caught_exception_falls_through (secret : Int) (oracle : Nat → LLMResult)
    (a0 : Agent) (e : String) (h : (play secret oracle a0).caught = some e) :
    (play secret oracle a0).agent.state = GameState.END ∧
    Msg.user (final_user_message secret) ∈ (play secret oracle a0).agent.messages ∧
    (play secret oracle a0).final_call = some ([] : List String) := by
  obtain ⟨h1, h2, -, h4⟩ := play_caught_spec secret oracle a0 e h
  exact ⟨h1, h4, h2⟩

/-- Witness for C10: a plain reply during PLAYING (protocol violation)
with secret 4 and max_tries 3. -/
theorem caught_exception_falls_through_witness :
    (play 4 (fun _ => LLMResult.resp ⟨some "no tool for me", []⟩)
      (mkAgent 3)).agent.state = GameState.END ∧
    Msg.user (final_user_message 4) ∈
      (play 4 (fun _ => LLMResult.resp ⟨some "no tool for me", []⟩)
        (mkAgent 3)).agent.messages ∧
    (play 4 (fun _ => LLMResult.resp ⟨some "no tool for me", []⟩)
      (mkAgent 3)).final_call = some ([] : List String) :=
  caught_exception_falls_through 4 _ (mkAgent 3)
    "Unexpected message from LLM during PLAYING state." (by decide)

end GuessGame
